import Mathlib

/-!
# Separate-chaining hash table (`open_hash_table.c`)

A shallow embedding of the table of `src/open_hash_table.c`.

* Pointers to keys and values are elements of two types `K` and `V`; a value
  slot is an `Option V`, with `none` standing for `NULL`.
* A chain (`List` of `list.h`) is a Lean list of `Item`s.
* The table is passed by state: a mutating operation returns the new table
  next to its C return value.
* An operation that indexes the bucket array out of bounds, or dereferences
  `NULL`, has no defined behaviour in C; it returns `none` here.
* `int` values are integers; the arithmetic of `default_hash`, the only place
  where `int` can overflow, wraps to 32 bits.
-/

namespace OpenHashTable

/-! ## Data model -/

/-- The record `struct _Item`: a key pointer and a value pointer. -/
structure Item (K V : Type) where
  key : K
  value : Option V
deriving DecidableEq, Repr

/-- The object behind a `void *` that reaches an equality callback: the C code
hands such a callback either a key or an `Item` wrapper, and the callback
cannot tell which. -/
inductive VoidPtr (K V : Type) where
  | key (k : K)
  | item (it : Item K V)
deriving DecidableEq, Repr

/-- The record `struct _HashTable`. -/
structure HashTable (K V : Type) where
  size : Int
  table : List (List (Item K V))
  hash : K → Int → Int
  key_equal : VoidPtr K V → VoidPtr K V → Bool

/-- One invocation of a cleanup callback, as issued by `hash_table_destroy`. -/
inductive CleanupCall (K V : Type) where
  | key_destroy (key : K)
  | value_destroy (value : Option V)
deriving DecidableEq, Repr

/-! ## The chain collaborator (`list.h`) -/

/-- Modelled from the spec: `list_create` of the chain collaborator (`list.h`
and its implementation are not among the sources), `create_empty()`. -/
def list_create {α : Type} : List α := []

/-- Modelled from the spec: `list_is_empty` of the chain collaborator,
`is_empty(chain) -> bool`. -/
def list_is_empty {α : Type} (list : List α) : Bool := list.isEmpty

/-- Modelled from the spec: `list_get` of the chain collaborator,
`get_at(chain, index) -> item | absent`; `none` is the `NULL` answer for a
position outside the chain. -/
def list_get {α : Type} (list : List α) (index : Int) : Option α :=
  if index < 0 then none else list[index.toNat]?

/-- Modelled from the spec: the scan behind `list_find`, started at position
`index` of the original chain. -/
def list_find_from {α : Type} (equal : α → α → Bool) (element : α) : List α → Int → Int
  | [], _ => -1
  | x :: rest, index =>
    if equal x element then index else list_find_from equal element rest (index + 1)

/-- Modelled from the spec: `list_find` of the chain collaborator,
`find(chain, predicate, probe_item) -> index | absent`, a linear search with
the predicate applied to the stored element and the probe; `-1` is "not
found". -/
def list_find {α : Type} (list : List α) (equal : α → α → Bool) (element : α) : Int :=
  list_find_from equal element list 0

/-- Modelled from the spec: `list_insert_last` of the chain collaborator,
`append(chain, item)`. -/
def list_insert_last {α : Type} (list : List α) (element : α) : List α :=
  list ++ [element]

/-- Modelled from the spec: `list_remove` of the chain collaborator,
`remove_at(chain, index) -> item`; the result is the removed element and the
chain that remains. -/
def list_remove {α : Type} (list : List α) (index : Int) : Option (α × List α) :=
  match list_get list index with
  | none => none
  | some element => some (element, list.eraseIdx index.toNat)

/-! ## Default callbacks -/

/-- The value of a `char` read as `unsigned char`, as `strcmp` compares. -/
def to_uchar (c : Int) : Int := c % 256

/-- The C library `strcmp` on the characters that precede the terminating
`NUL` of each argument. -/
def strcmp : List Int → List Int → Int
  | [], [] => 0
  | [], c :: _ => 0 - to_uchar c
  | c :: _, [] => to_uchar c
  | a :: s, b :: t => if a = b then strcmp s t else to_uchar a - to_uchar b

/-- `default_key_equal`, on what the `(char *)` casts of its arguments read. -/
def default_key_equal (str1 str2 : List Int) : Bool :=
  strcmp str1 str2 == 0

/-- A 32-bit `int` result: the value wrapped into `[-2^31, 2^31)`. -/
def wrap_int (x : Int) : Int := (x + 2147483648) % 4294967296 - 2147483648

/-- The `for` loop of `default_hash` over the characters left to read. -/
def default_hash_loop (a : Int) : List Int → Int → Int
  | [], result => result
  | c :: rest, result => default_hash_loop a rest (wrap_int (result * a + c))

/-- `default_hash`, on what the `(char *)` cast of its key reads; `%` is the
remainder of C, which truncates towards zero. -/
def default_hash (key : List Int) (n : Int) : Int :=
  let result := 0
  let a := 127
  Int.tmod (default_hash_loop a key result) n

/-! ## Construction and teardown -/

/-- `item_create`. -/
def item_create {K V : Type} (key : K) (value : Option V) : Item K V :=
  { key := key, value := value }

/-- `DEFAULT_SIZE`. -/
def DEFAULT_SIZE : Int := 101

/-- `hash_table_create`; `none` for `hash` or `key_equal` is the `NULL`
argument. `as_chars` is the memory behind a pointer as a `(char *)` cast
reads it, which only the default callbacks look at. -/
def hash_table_create {K V : Type} (as_chars : VoidPtr K V → List Int) (size : Int)
    (hash : Option (K → Int → Int))
    (key_equal : Option (VoidPtr K V → VoidPtr K V → Bool)) : HashTable K V :=
  let size := if size == -1 then DEFAULT_SIZE else size
  { size := size
    hash := match hash with
      | none => fun key n => default_hash (as_chars (VoidPtr.key key)) n
      | some hash => hash
    key_equal := match key_equal with
      | none => fun str1 str2 => default_key_equal (as_chars str1) (as_chars str2)
      | some key_equal => key_equal
    table := List.replicate size.toNat list_create }

/-- The read `htable->table[i]`; `none` when `i` is outside the array. -/
def table_at {K V : Type} (htable : HashTable K V) (i : Int) : Option (List (Item K V)) :=
  if i < 0 then none else htable.table[i.toNat]?

/-- The `while (!list_is_empty(list))` loop of `hash_table_destroy` on one
chain: the callbacks it issues, in order. `key_destroy` and `value_destroy`
say whether the respective callback is non-`NULL`. -/
def hash_table_destroy_chain {K V : Type} (key_destroy value_destroy : Bool) :
    List (Item K V) → List (CleanupCall K V)
  | [] => []
  | item :: list =>
    (if key_destroy then [CleanupCall.key_destroy item.key] else [])
      ++ (if value_destroy then [CleanupCall.value_destroy item.value] else [])
      ++ hash_table_destroy_chain key_destroy value_destroy list

/-- The `for` loop of `hash_table_destroy` with `n` buckets left, from bucket
`i`. -/
def hash_table_destroy_loop {K V : Type} (htable : HashTable K V)
    (key_destroy value_destroy : Bool) : Nat → Int → Option (List (CleanupCall K V))
  | 0, _ => some []
  | n + 1, i =>
    match table_at htable i with
    | none => none
    | some list =>
      match hash_table_destroy_loop htable key_destroy value_destroy n (i + 1) with
      | none => none
      | some calls => some (hash_table_destroy_chain key_destroy value_destroy list ++ calls)

/-- `hash_table_destroy`: the table is consumed; what remains observable is
the sequence of callback invocations. -/
def hash_table_destroy {K V : Type} (htable : HashTable K V)
    (key_destroy value_destroy : Bool) : Option (List (CleanupCall K V)) :=
  hash_table_destroy_loop htable key_destroy value_destroy htable.size.toNat 0

/-! ## Query and size -/

/-- The `for` loop of `hash_table_is_empty` with `n` buckets left, from bucket
`i`. -/
def hash_table_is_empty_loop {K V : Type} (htable : HashTable K V) : Nat → Int → Option Bool
  | 0, _ => some true
  | n + 1, i =>
    match table_at htable i with
    | none => none
    | some list =>
      if !list_is_empty list then some false
      else hash_table_is_empty_loop htable n (i + 1)

/-- `hash_table_is_empty`. -/
def hash_table_is_empty {K V : Type} (htable : HashTable K V) : Option Bool :=
  hash_table_is_empty_loop htable htable.size.toNat 0

/-- The `while (list_get(list, index) != NULL)` loop of `hash_table_size`, run
for at most `fuel` probes. -/
def hash_table_size_chain {K V : Type} (list : List (Item K V)) : Nat → Int → Int → Int
  | 0, _, count => count
  | fuel + 1, index, count =>
    match list_get list index with
    | none => count
    | some _ => hash_table_size_chain list fuel (index + 1) (count + 1)

/-- The `for` loop of `hash_table_size` with `n` buckets left, from bucket
`i`. A chain of length `l` is given `l + 1` probes, the last of which is the
one that returns `NULL`. -/
def hash_table_size_loop {K V : Type} (htable : HashTable K V) : Nat → Int → Int → Option Int
  | 0, _, count => some count
  | n + 1, i, count =>
    match table_at htable i with
    | none => none
    | some list =>
      hash_table_size_loop htable n (i + 1)
        (hash_table_size_chain list (list.length + 1) 0 count)

/-- `hash_table_size`. -/
def hash_table_size {K V : Type} (htable : HashTable K V) : Option Int :=
  hash_table_size_loop htable htable.size.toNat 0 0

/-- `hash_table_get`; the inner `none` is the `NULL` result. The probe handed
to `list_find` is an `Item` wrapper, so `key_equal` receives two wrappers. -/
def hash_table_get {K V : Type} (htable : HashTable K V) (key : K) : Option (Option V) :=
  let idx := htable.hash key htable.size
  match table_at htable idx with
  | none => none
  | some list =>
    let item : Item K V := item_create key none
    let list_idx :=
      list_find list (fun a b => htable.key_equal (VoidPtr.item a) (VoidPtr.item b)) item
    if list_idx != -1 then
      match list_get list list_idx with
      | none => none
      | some result => some result.value
    else some none

/-! ## Mutation -/

/-- `hash_table_insert`: the table after the call and the returned pointer.
The probe handed to `list_find` is the freshly created `Item`, so `key_equal`
receives two wrappers. -/
def hash_table_insert {K V : Type} (htable : HashTable K V) (key : K) (value : Option V) :
    Option (HashTable K V × Option V) :=
  let idx := htable.hash key htable.size
  match table_at htable idx with
  | none => none
  | some list =>
    let item : Item K V := item_create key value
    let list_idx :=
      list_find list (fun a b => htable.key_equal (VoidPtr.item a) (VoidPtr.item b)) item
    if list_idx != -1 then
      match list_get list list_idx with
      | none => none
      | some old_item =>
        let old_value := old_item.value
        let list := list.set list_idx.toNat { old_item with value := value }
        some ({ htable with table := htable.table.set idx.toNat list }, old_value)
    else
      let list := list_insert_last list item
      some ({ htable with table := htable.table.set idx.toNat list }, none)

/-- `hash_table_remove`: the table after the call and the returned pointer. -/
def hash_table_remove {K V : Type} (htable : HashTable K V) (key : K) :
    Option (HashTable K V × Option V) :=
  let idx := htable.hash key htable.size
  match table_at htable idx with
  | none => none
  | some list =>
    let item : Item K V := item_create key none
    let list_idx :=
      list_find list (fun a b => htable.key_equal (VoidPtr.item a) (VoidPtr.item b)) item
    if list_idx != -1 then
      match list_remove list list_idx with
      | none => none
      | some (removed_item, list) =>
        let value := removed_item.value
        some ({ htable with table := htable.table.set idx.toNat list }, value)
    else some (htable, none)

/-! ## Bulk views -/

/-- The `while (item != NULL)` loop of `hash_table_keys` on one chain, run for
at most `fuel` probes. -/
def hash_table_keys_chain {K V : Type} (list : List (Item K V)) :
    Nat → Int → List K → List K
  | 0, _, keys => keys
  | fuel + 1, index, keys =>
    match list_get list index with
    | none => keys
    | some item => hash_table_keys_chain list fuel (index + 1) (list_insert_last keys item.key)

/-- The `for` loop of `hash_table_keys` with `n` buckets left, from bucket
`i`. -/
def hash_table_keys_loop {K V : Type} (htable : HashTable K V) :
    Nat → Int → List K → Option (List K)
  | 0, _, keys => some keys
  | n + 1, i, keys =>
    match table_at htable i with
    | none => none
    | some list =>
      hash_table_keys_loop htable n (i + 1)
        (hash_table_keys_chain list (list.length + 1) 0 keys)

/-- `hash_table_keys`. -/
def hash_table_keys {K V : Type} (htable : HashTable K V) : Option (List K) :=
  hash_table_keys_loop htable htable.size.toNat 0 list_create

/-- The `while (item != NULL)` loop of `hash_table_values` on one chain, run
for at most `fuel` probes. -/
def hash_table_values_chain {K V : Type} (list : List (Item K V)) :
    Nat → Int → List (Option V) → List (Option V)
  | 0, _, values => values
  | fuel + 1, index, values =>
    match list_get list index with
    | none => values
    | some item =>
      hash_table_values_chain list fuel (index + 1) (list_insert_last values item.value)

/-- The `for` loop of `hash_table_values` with `n` buckets left, from bucket
`i`. -/
def hash_table_values_loop {K V : Type} (htable : HashTable K V) :
    Nat → Int → List (Option V) → Option (List (Option V))
  | 0, _, values => some values
  | n + 1, i, values =>
    match table_at htable i with
    | none => none
    | some list =>
      hash_table_values_loop htable n (i + 1)
        (hash_table_values_chain list (list.length + 1) 0 values)

/-- `hash_table_values`. -/
def hash_table_values {K V : Type} (htable : HashTable K V) : Option (List (Option V)) :=
  hash_table_values_loop htable htable.size.toNat 0 list_create

/-! ## Rehash -/

/-- The `while (item != NULL)` loop of `hash_table_rehash` on one chain, run
for at most `fuel` probes: every entry is inserted into `new_ht`. -/
def hash_table_rehash_chain {K V : Type} (list : List (Item K V)) :
    Nat → Int → HashTable K V → Option (HashTable K V)
  | 0, _, new_ht => some new_ht
  | fuel + 1, index, new_ht =>
    match list_get list index with
    | none => some new_ht
    | some item =>
      match hash_table_insert new_ht item.key item.value with
      | none => none
      | some (new_ht, _) => hash_table_rehash_chain list fuel (index + 1) new_ht

/-- The `for` loop of `hash_table_rehash` with `n` buckets left, from bucket
`i`. -/
def hash_table_rehash_loop {K V : Type} (htable : HashTable K V) :
    Nat → Int → HashTable K V → Option (HashTable K V)
  | 0, _, new_ht => some new_ht
  | n + 1, i, new_ht =>
    match table_at htable i with
    | none => none
    | some list =>
      match hash_table_rehash_chain list (list.length + 1) 0 new_ht with
      | none => none
      | some new_ht => hash_table_rehash_loop htable n (i + 1) new_ht

/-- `hash_table_rehash`: the returned table and the callback invocations made
on the way. -/
def hash_table_rehash {K V : Type} (as_chars : VoidPtr K V → List Int)
    (htable : HashTable K V) (new_size : Int) (key_destroy value_destroy : Bool) :
    Option (HashTable K V × List (CleanupCall K V)) :=
  if new_size ≤ 0 then some (htable, [])
  else
    let new_ht := hash_table_create as_chars new_size (some htable.hash) (some htable.key_equal)
    match hash_table_rehash_loop htable htable.size.toNat 0 new_ht with
    | none => none
    | some new_ht =>
      match hash_table_destroy htable key_destroy value_destroy with
      | none => none
      | some calls => some (new_ht, calls)

/-! ## A client: key records compared by their `id` field

The client stores keys of the C type `struct { char *name; long id; }`, hashed
and compared by `id`, which lies one machine word into the record. An `Item`
wrapper is two machine words as well, the second being its value pointer, so
on a wrapper the same field access reads `value`. -/

/-- A key record `struct { char *name; long id; }`; `name` is an address. -/
structure IdKey where
  name : Nat
  id : Nat
deriving DecidableEq, Repr

/-- The client hash `id % n`. -/
def id_hash (key : IdKey) (n : Int) : Int := (key.id : Int) % n

/-- The second machine word of the object behind a pointer: the `id` of a key
record, the value pointer of an `Item` wrapper (`none` for `NULL`). -/
def second_word : VoidPtr IdKey Nat → Option Nat
  | VoidPtr.key k => some k.id
  | VoidPtr.item it => it.value

/-- The client equality `((Key *)a)->id == ((Key *)b)->id`. -/
def id_equal (a b : VoidPtr IdKey Nat) : Bool := second_word a == second_word b

/-- The client never uses the default callbacks, so the `(char *)` view of its
objects is immaterial. -/
def id_chars : VoidPtr IdKey Nat → List Int := fun _ => []

/-- The client table with two buckets, `hash_table_create(2, id_hash, id_equal)`. -/
def id_table : HashTable IdKey Nat :=
  hash_table_create id_chars 2 (some id_hash) (some id_equal)

/-- A key record with `id` 1. -/
def key_a : IdKey := { name := 100, id := 1 }

/-- A key record with `id` 3: it is not equal to `key_a`, and with two buckets
it falls into the same bucket. -/
def key_b : IdKey := { name := 300, id := 3 }

/-- The chains of a table, when the operation that produced it is defined. -/
def chains_of {K V R : Type} (r : Option (HashTable K V × R)) : Option (List (List (Item K V))) :=
  r.map (fun p => p.1.table)

/-- The C return value of a mutating operation, when it is defined. -/
def returned {K V R : Type} (r : Option (HashTable K V × R)) : Option R :=
  r.map (fun p => p.2)

/-- Run `next` on the table that a mutating operation leaves behind. -/
def and_then {K V R S : Type} (r : Option (HashTable K V × R))
    (next : HashTable K V → Option S) : Option S :=
  r.bind (fun p => next p.1)

/-- A key record with `id` 0; with two buckets it falls into bucket 0. -/
def key_z : IdKey := { name := 500, id := 0 }

/-! ## A client of the default callbacks: string keys

The client passes `NULL` for both callbacks and stores `char` buffers. The
default equality is a `strcmp` of what its two pointers read as strings; on an
`Item` wrapper that is the byte image of the record, which starts with the key
pointer (8 bytes, least significant first) followed by the value pointer. -/

/-- A `char` buffer: its address and the characters before its `NUL`. -/
structure StrKey where
  addr : Nat
  chars : List Int
deriving DecidableEq, Repr

/-- The bytes of a pointer of `width` bytes, least significant first, up to
its first zero byte, where a string read stops. -/
def pointer_bytes : Nat → Nat → List Int
  | 0, _ => []
  | width + 1, addr =>
    if addr % 256 = 0 then []
    else ((addr % 256 : Nat) : Int) :: pointer_bytes width (addr / 256)

/-- The address held by a value pointer; `NULL` is 0. -/
def value_addr : Option Nat → Nat
  | none => 0
  | some v => v

/-- The string that a `(char *)` cast of an `Item` wrapper reads: the bytes of
the key pointer and, only if none of its 8 bytes is zero, those of the value
pointer. -/
def item_bytes (it : Item StrKey Nat) : List Int :=
  let key_bytes := pointer_bytes 8 it.key.addr
  if key_bytes.length = 8 then key_bytes ++ pointer_bytes 8 (value_addr it.value)
  else key_bytes

/-- The `(char *)` view of the client's objects. -/
def str_chars : VoidPtr StrKey Nat → List Int
  | VoidPtr.key k => k.chars
  | VoidPtr.item it => item_bytes it

/-- The client table `hash_table_create(4, NULL, NULL)`. -/
def str_table : HashTable StrKey Nat := hash_table_create str_chars 4 none none

/-- A buffer holding `"a"` at address `0x1010`. -/
def str_a : StrKey := { addr := 4112, chars := [97] }

/-- A second buffer holding `"a"`, at address `0x1020`. -/
def str_a_copy : StrKey := { addr := 4128, chars := [97] }

/-- A buffer holding `"b"` at address `0x1030`. -/
def str_b : StrKey := { addr := 4144, chars := [98] }

/-- A buffer holding `"a"` at the 256-aligned address `0x1000`. -/
def str_a_aligned : StrKey := { addr := 4096, chars := [97] }

/-- A buffer holding `"e"` at the 256-aligned address `0x2000`; with four
buckets `"e"` and `"a"` share bucket 1. -/
def str_e_aligned : StrKey := { addr := 8192, chars := [101] }

/-- A buffer holding `"aaaaa"` at address `0x1040`. -/
def str_aaaaa : StrKey := { addr := 4160, chars := [97, 97, 97, 97, 97] }

/-- The client table of the default size, `hash_table_create(-1, NULL, NULL)`. -/
def str_table_default : HashTable StrKey Nat := hash_table_create str_chars (-1) none none

/-! ## Readings of the specification -/

/-- The entries of a table as the spec scans them: buckets in ascending index
order, chain positions in ascending order within a bucket. -/
def entries {K V : Type} (htable : HashTable K V) : List (Item K V) :=
  htable.table.flatten

/-- The spec's `keys(table)`: every key across all buckets, in scan order. -/
def keys_spec {K V : Type} (htable : HashTable K V) : List K :=
  (entries htable).map (fun item => item.key)

/-- The spec's `values(table)`: every value across all buckets, in scan order. -/
def values_spec {K V : Type} (htable : HashTable K V) : List (Option V) :=
  (entries htable).map (fun item => item.value)

/-- The spec's total entry count: the sum of chain lengths across all buckets. -/
def size_spec {K V : Type} (htable : HashTable K V) : Int :=
  ((htable.table.map List.length).sum : Nat)

/-- The spec's `is_empty(table)`: every bucket's chain has zero entries. -/
def is_empty_spec {K V : Type} (htable : HashTable K V) : Bool :=
  htable.table.all (fun list => list.length == 0)

/-- The hash contract of the data model: a value in `[0, n)` for every key and
every positive `n`. -/
def HashInRange {K : Type} (hash : K → Int → Int) : Prop :=
  ∀ (key : K) (n : Int), 0 < n → 0 ≤ hash key n ∧ hash key n < n

/-- Every entry sits in the bucket that the table's hash assigns to its key. -/
def Placed {K V : Type} (htable : HashTable K V) : Prop :=
  ∀ (i : Nat) (list : List (Item K V)), htable.table[i]? = some list →
    ∀ item ∈ list, htable.hash item.key htable.size = (i : Int)

/-- The tables that a client can reach from the table `start` by calls of
`hash_table_insert`, `hash_table_remove` and `hash_table_rehash` with a
positive bucket count. -/
inductive Reachable {K V : Type} (as_chars : VoidPtr K V → List Int)
    (start : HashTable K V) : HashTable K V → Prop where
  | init : Reachable as_chars start start
  | insert (htable : HashTable K V) (key : K) (value : Option V)
      (next : HashTable K V) (old : Option V) :
      Reachable as_chars start htable →
      hash_table_insert htable key value = some (next, old) →
      Reachable as_chars start next
  | remove (htable : HashTable K V) (key : K) (next : HashTable K V) (old : Option V) :
      Reachable as_chars start htable →
      hash_table_remove htable key = some (next, old) →
      Reachable as_chars start next
  | rehash (htable : HashTable K V) (new_size : Int) (key_destroy value_destroy : Bool)
      (next : HashTable K V) (calls : List (CleanupCall K V)) :
      Reachable as_chars start htable → 0 < new_size →
      hash_table_rehash as_chars htable new_size key_destroy value_destroy
        = some (next, calls) →
      Reachable as_chars start next

/-- The invariant that the operations maintain for a table that hashes with
`hash`: a positive bucket count, one chain per bucket, and every entry in the
bucket of its key. -/
def Sound {K V : Type} (hash : K → Int → Int) (htable : HashTable K V) : Prop :=
  htable.hash = hash ∧ 0 < htable.size ∧ htable.size.toNat = htable.table.length ∧
    Placed htable

/-- The client table of `id_table` with one entry in each of its two buckets,
both holding the value 10. -/
def id_table_two : HashTable IdKey Nat :=
  { id_table with
    table := [[{ key := key_z, value := some 10 }], [{ key := key_a, value := some 10 }]] }

/-! ## The client callbacks meet the table's contract -/

/-- The client hash returns a bucket index for every positive bucket count, the
client equality is an equivalence on everything it can be handed, and keys it
judges equal hash alike. -/
theorem id_callbacks_contract :
    (∀ (key : IdKey) (n : Int), 0 < n → 0 ≤ id_hash key n ∧ id_hash key n < n) ∧
    (∀ a, id_equal a a = true) ∧
    (∀ a b, id_equal a b = true → id_equal b a = true) ∧
    (∀ a b c, id_equal a b = true → id_equal b c = true → id_equal a c = true) ∧
    (∀ (a b : IdKey) (n : Int),
      id_equal (VoidPtr.key a) (VoidPtr.key b) = true → id_hash a n = id_hash b n) := by
  refine ⟨?_, ?_, ?_, ?_, ?_⟩
  · intro key n hn
    exact ⟨Int.emod_nonneg _ (ne_of_gt hn), Int.emod_lt_of_pos _ hn⟩
  · intro a
    simp [id_equal]
  · intro a b h
    simp only [id_equal, beq_iff_eq] at h ⊢
    exact h.symm
  · intro a b c h1 h2
    simp only [id_equal, beq_iff_eq] at h1 h2 ⊢
    exact h1.trans h2
  · intro a b n h
    simp only [id_equal, second_word, beq_iff_eq, Option.some.injEq] at h
    simp [id_hash, h]

/-! ## Reading the bucket array -/

theorem table_at_natCast {K V : Type} (htable : HashTable K V) (i : Nat) :
    table_at htable (i : Int) = htable.table[i]? := by
  simp [table_at]

theorem list_get_natCast {α : Type} (list : List α) (i : Nat) :
    list_get list (i : Int) = list[i]? := by
  simp [list_get]

/-- The probing loop of `hash_table_size` stops at the end of the chain: with
more probes than entries left, it adds the number of entries from `index` on. -/
theorem hash_table_size_chain_eq {K V : Type} (list : List (Item K V)) :
    ∀ (fuel index : Nat) (count : Int), list.length < index + fuel →
      hash_table_size_chain list fuel (index : Int) count
        = count + ((list.length - index : Nat) : Int) := by
  intro fuel
  induction fuel with
  | zero =>
    intro index count h
    have : list.length - index = 0 := by omega
    simp [hash_table_size_chain, this]
  | succ fuel ih =>
    intro index count h
    rw [hash_table_size_chain, list_get_natCast]
    by_cases hlt : index < list.length
    · rw [List.getElem?_eq_getElem hlt]
      have := ih (index + 1) (count + 1) (by omega)
      simp only [Nat.cast_add, Nat.cast_one] at this
      rw [this]
      have h2 : list.length - index = (list.length - (index + 1)) + 1 := by omega
      rw [h2]
      push_cast
      ring
    · have h0 : list.length - index = 0 := by omega
      rw [List.getElem?_eq_none (by omega)]
      simp [h0]

/-- The bucket loop of `hash_table_is_empty`, on a bucket array with as many
chains as the loop visits. -/
theorem hash_table_is_empty_loop_eq {K V : Type} (htable : HashTable K V) :
    ∀ (n i : Nat), i + n = htable.table.length →
      hash_table_is_empty_loop htable n (i : Int)
        = some ((htable.table.drop i).all list_is_empty) := by
  intro n
  induction n with
  | zero =>
    intro i h
    rw [List.drop_eq_nil_of_le (by omega)]
    simp [hash_table_is_empty_loop]
  | succ n ih =>
    intro i h
    have hi : i < htable.table.length := by omega
    rw [hash_table_is_empty_loop, table_at_natCast, List.getElem?_eq_getElem hi]
    have hd : htable.table.drop i = htable.table[i] :: htable.table.drop (i + 1) :=
      List.drop_eq_getElem_cons hi
    have := ih (i + 1) (by omega)
    simp only [Nat.cast_add, Nat.cast_one] at this
    rw [hd, this, List.all_cons]
    cases hl : list_is_empty htable.table[i] <;> simp [hl]

/-- The bucket loop of `hash_table_size`, on a bucket array with as many chains
as the loop visits: it adds the chain lengths. -/
theorem hash_table_size_loop_eq {K V : Type} (htable : HashTable K V) :
    ∀ (n i : Nat) (count : Int), i + n = htable.table.length →
      hash_table_size_loop htable n (i : Int) count
        = some (count + (((htable.table.drop i).map List.length).sum : Nat)) := by
  intro n
  induction n with
  | zero =>
    intro i count h
    rw [List.drop_eq_nil_of_le (by omega)]
    simp [hash_table_size_loop]
  | succ n ih =>
    intro i count h
    have hi : i < htable.table.length := by omega
    rw [hash_table_size_loop, table_at_natCast, List.getElem?_eq_getElem hi]
    have hd : htable.table.drop i = htable.table[i] :: htable.table.drop (i + 1) :=
      List.drop_eq_getElem_cons hi
    have := ih (i + 1)
      (hash_table_size_chain htable.table[i] (htable.table[i].length + 1) 0 count) (by omega)
    simp only [Nat.cast_add, Nat.cast_one] at this
    simp only [this, hd]
    have hc := hash_table_size_chain_eq htable.table[i] (htable.table[i].length + 1) 0 count
      (by omega)
    simp only [Nat.cast_zero] at hc
    rw [hc]
    simp only [List.map_cons, List.sum_cons, Nat.sub_zero]
    push_cast
    ring_nf


/-! ## Fresh tables -/

/-- The bucket count that `hash_table_create` stores for a requested `size`. -/
theorem hash_table_create_size {K V : Type} (as_chars : VoidPtr K V → List Int) (size : Int)
    (hash : Option (K → Int → Int)) (key_equal : Option (VoidPtr K V → VoidPtr K V → Bool)) :
    (hash_table_create as_chars size hash key_equal).size
      = if size = -1 then 101 else size := by
  by_cases h : size = -1 <;> simp [hash_table_create, DEFAULT_SIZE, h]

/-- The bucket array that `hash_table_create` allocates: one empty chain per
bucket. -/
theorem hash_table_create_table {K V : Type} (as_chars : VoidPtr K V → List Int) (size : Int)
    (hash : Option (K → Int → Int)) (key_equal : Option (VoidPtr K V → VoidPtr K V → Bool)) :
    (hash_table_create as_chars size hash key_equal).table
      = List.replicate (hash_table_create as_chars size hash key_equal).size.toNat [] := by
  simp [hash_table_create, list_create]

/-- What `hash_table_get` answers right after `hash_table_insert` on a fresh
table, for any callbacks and any key that the hash sends to a bucket index:
the inserted value exactly when the equality callback accepts the stored
wrapper `(key, value)` against the probe wrapper `(key, NULL)`, and `NULL`
otherwise. -/
theorem fresh_insert_then_get {K V : Type} (as_chars : VoidPtr K V → List Int) (size : Int)
    (hash : Option (K → Int → Int)) (key_equal : Option (VoidPtr K V → VoidPtr K V → Bool))
    (key : K) (value : Option V)
    (hlo : 0 ≤ (hash_table_create as_chars size hash key_equal).hash key
            (hash_table_create as_chars size hash key_equal).size)
    (hhi : (hash_table_create as_chars size hash key_equal).hash key
            (hash_table_create as_chars size hash key_equal).size
          < (hash_table_create as_chars size hash key_equal).size) :
    and_then (hash_table_insert (hash_table_create as_chars size hash key_equal) key value)
        (fun t => hash_table_get t key)
      = some (if (hash_table_create as_chars size hash key_equal).key_equal
            (VoidPtr.item { key := key, value := value })
            (VoidPtr.item { key := key, value := none }) = true
          then value else none) := by
  generalize ht : hash_table_create as_chars size hash key_equal = t at hlo hhi ⊢
  have htab : t.table = List.replicate t.size.toNat [] := by
    rw [← ht]; exact hash_table_create_table as_chars size hash key_equal
  have hlen : t.table.length = t.size.toNat := by rw [htab]; simp
  have hidx : (t.hash key t.size).toNat < t.table.length := by
    rw [hlen]; omega
  have hat : table_at t (t.hash key t.size) = some [] := by
    rw [table_at, if_neg (by omega), List.getElem?_eq_getElem hidx]
    simp [htab]
  have hins : hash_table_insert t key value = some ({ t with
      table := List.set t.table (t.hash key t.size).toNat [item_create key value] }, none) := by
    rw [hash_table_insert]
    simp only [hat, list_find, list_find_from, list_insert_last]
    rfl
  rw [hins]
  simp only [and_then, Option.some_bind, hash_table_get, table_at, if_neg (not_lt.mpr hlo)]
  rw [List.getElem?_set_self hidx]
  simp only [list_find, list_find_from, item_create]
  by_cases hk : t.key_equal (VoidPtr.item { key := key, value := value })
      (VoidPtr.item { key := key, value := none }) = true
  · simp [hk, list_get]
  · simp [hk]

/-! ## Claims -/

/-- C1, evaluated at a failing input: on the client table, after
`hash_table_insert(t, key_a, 10)` the entry is stored in its chain, yet
`hash_table_get(t, key_a)` returns `NULL`: the equality callback is handed the
stored wrapper and the probe wrapper, whose value fields differ. -/
theorem insert_then_get_misses :
    chains_of (hash_table_insert id_table key_a (some 10))
        = some [[], [{ key := key_a, value := some 10 }]] ∧
    and_then (hash_table_insert id_table key_a (some 10))
        (fun t => hash_table_get t key_a) = some none := by
  decide

/-- C2, evaluated at a failing input: on the client table, after
`hash_table_insert(t, key_a, 10)` a second `hash_table_insert(t, key_a, 20)`
returns `NULL` instead of 10, `hash_table_size` goes from 1 to 2, and
`hash_table_get(t, key_a)` afterwards returns `NULL` instead of 20. -/
theorem second_insert_does_not_replace :
    returned (and_then (hash_table_insert id_table key_a (some 10))
        (fun t => hash_table_insert t key_a (some 20))) = some none ∧
    and_then (hash_table_insert id_table key_a (some 10)) hash_table_size = some 1 ∧
    and_then (and_then (hash_table_insert id_table key_a (some 10))
        (fun t => hash_table_insert t key_a (some 20))) hash_table_size = some 2 ∧
    and_then (and_then (hash_table_insert id_table key_a (some 10))
        (fun t => hash_table_insert t key_a (some 20)))
        (fun t => hash_table_get t key_a) = some none := by
  decide

/-- C3, evaluated at a failing input: on the client table, after
`hash_table_insert(t, key_a, 10)` the call `hash_table_remove(t, key_a)`
returns `NULL` instead of 10 and the entry stays in its chain. -/
theorem remove_after_insert_misses :
    returned (and_then (hash_table_insert id_table key_a (some 10))
        (fun t => hash_table_remove t key_a)) = some none ∧
    chains_of (and_then (hash_table_insert id_table key_a (some 10))
        (fun t => hash_table_remove t key_a))
        = some [[], [{ key := key_a, value := some 10 }]] := by
  decide

/-- C4, evaluated at a failing input: the client table populated with the one
pair `(key_a, 10)` and rehashed to 3 buckets without cleanup callbacks holds
that pair, and has `hash_table_size` 1, yet `hash_table_get(new, key_a)`
returns `NULL` instead of 10. -/
theorem rehash_then_get_misses :
    chains_of (and_then (hash_table_insert id_table key_a (some 10))
        (fun t => hash_table_rehash id_chars t 3 false false))
        = some [[], [{ key := key_a, value := some 10 }], []] ∧
    and_then (and_then (hash_table_insert id_table key_a (some 10))
        (fun t => hash_table_rehash id_chars t 3 false false)) hash_table_size = some 1 ∧
    and_then (and_then (hash_table_insert id_table key_a (some 10))
        (fun t => hash_table_rehash id_chars t 3 false false))
        (fun t => hash_table_get t key_a) = some none := by
  decide

/-- C5, evaluated at a failing input: after three inserts under the one key
`key_a` into the client table, `hash_table_size` is 3 although a single
distinct key is present: `hash_table_keys` is `key_a` three times. -/
theorem size_counts_repeated_key :
    and_then (and_then (and_then (hash_table_insert id_table key_a (some 10))
        (fun t => hash_table_insert t key_a (some 20)))
        (fun t => hash_table_insert t key_a (some 30))) hash_table_size = some 3 ∧
    and_then (and_then (and_then (hash_table_insert id_table key_a (some 10))
        (fun t => hash_table_insert t key_a (some 20)))
        (fun t => hash_table_insert t key_a (some 30))) hash_table_keys
        = some [key_a, key_a, key_a] := by
  decide

/-- C6, evaluated at two failing inputs: `default_hash("aaaaa", 101)` is `-2`
(the running `int` wraps to `-335503519`, and the remainder of C keeps the
sign), and `default_hash` of the one-character string whose `char` has the
value `-128` is `-27` for 101 buckets; neither lies in `[0, 101)`. -/
theorem default_hash_negative :
    default_hash_loop 127 [97, 97, 97, 97, 97] 0 = -335503519 ∧
    default_hash [97, 97, 97, 97, 97] 101 = -2 ∧
    default_hash [-128] 101 = -27 := by
  decide

/-- C7, evaluated at a failing input: after `hash_table_insert(t, key_a, 10)`
and `hash_table_insert(t, key_a, 20)` on the client table, the chain of bucket
1 holds two entries with the key `key_a`, which the equality callback judges
equal to itself. -/
theorem chain_holds_equal_keys :
    chains_of (and_then (hash_table_insert id_table key_a (some 10))
        (fun t => hash_table_insert t key_a (some 20)))
        = some [[], [{ key := key_a, value := some 10 }, { key := key_a, value := some 20 }]] ∧
    id_equal (VoidPtr.key key_a) (VoidPtr.key key_a) = true := by
  decide

/-- C8: for every table and every `new_size <= 0`, `hash_table_rehash` returns
the table it was given, bucket count and chains untouched, and invokes no
cleanup callback, whether or not callbacks are supplied. -/
theorem rehash_nonpositive_is_noop {K V : Type} (as_chars : VoidPtr K V → List Int)
    (htable : HashTable K V) (new_size : Int) (key_destroy value_destroy : Bool)
    (h : new_size ≤ 0) :
    hash_table_rehash as_chars htable new_size key_destroy value_destroy
      = some (htable, []) := by
  simp [hash_table_rehash, h]

/-- C8 at the client table, `new_size = -3` and both callbacks supplied. -/
theorem rehash_nonpositive_is_noop_witness :
    (-3 : Int) ≤ 0 ∧
    hash_table_rehash id_chars id_table (-3) true true = some (id_table, []) :=
  ⟨by decide, rehash_nonpositive_is_noop id_chars id_table (-3) true true (by decide)⟩

/-- C9, evaluated at a failing input: the client table holds the single entry
`(key_a, NULL)`; `key_b` is not equal to `key_a`, so no entry with a key equal
to `key_b` is present; `hash_table_remove(t, key_b)` returns `NULL` but
detaches the entry of `key_a` from its chain. -/
theorem remove_missing_key_detaches_other :
    id_equal (VoidPtr.key key_a) (VoidPtr.key key_b) = false ∧
    chains_of (hash_table_insert id_table key_a none)
        = some [[], [{ key := key_a, value := none }]] ∧
    returned (and_then (hash_table_insert id_table key_a none)
        (fun t => hash_table_remove t key_b)) = some none ∧
    chains_of (and_then (hash_table_insert id_table key_a none)
        (fun t => hash_table_remove t key_b)) = some [[], []] := by
  decide

/-- Fresh tables under the hash contract: for a requested bucket count that is
positive or the sentinel `-1`, the table that `hash_table_create` returns has
a positive bucket count, `hash_table_size` 0 and `hash_table_is_empty` true;
one `hash_table_insert` of any value under a key that the hash sends to a
bucket index succeeds and leaves a table on which `hash_table_is_empty` is
false. -/
theorem create_empty_semantics {K V : Type} (as_chars : VoidPtr K V → List Int) (size : Int)
    (hash : Option (K → Int → Int)) (key_equal : Option (VoidPtr K V → VoidPtr K V → Bool))
    (hsize : 0 < size ∨ size = -1) :
    0 < (hash_table_create as_chars size hash key_equal).size ∧
    hash_table_size (hash_table_create as_chars size hash key_equal) = some 0 ∧
    hash_table_is_empty (hash_table_create as_chars size hash key_equal) = some true ∧
    ∀ (key : K) (value : Option V),
      0 ≤ (hash_table_create as_chars size hash key_equal).hash key
            (hash_table_create as_chars size hash key_equal).size →
      (hash_table_create as_chars size hash key_equal).hash key
            (hash_table_create as_chars size hash key_equal).size
          < (hash_table_create as_chars size hash key_equal).size →
      ∃ t old,
        hash_table_insert (hash_table_create as_chars size hash key_equal) key value
          = some (t, old) ∧
        hash_table_is_empty t = some false := by
  generalize ht : hash_table_create as_chars size hash key_equal = t
  have htab : t.table = List.replicate t.size.toNat [] := by
    rw [← ht]; exact hash_table_create_table as_chars size hash key_equal
  have hlen : t.table.length = t.size.toNat := by rw [htab]; simp
  refine ⟨?_, ?_, ?_, ?_⟩
  · rw [← ht, hash_table_create_size]
    rcases hsize with h | h
    · split <;> omega
    · simp [h]
  · rw [hash_table_size, ← hlen]
    have := hash_table_size_loop_eq t t.table.length 0 0 (by simp)
    simp only [Nat.cast_zero] at this
    rw [this, htab]
    simp
  · rw [hash_table_is_empty, ← hlen]
    have := hash_table_is_empty_loop_eq t t.table.length 0 (by simp)
    simp only [Nat.cast_zero] at this
    rw [this, htab]
    simp [list_is_empty]
  · intro key value hlo hhi
    have hidx : (t.hash key t.size).toNat < t.table.length := by
      rw [hlen]; omega
    have hat : table_at t (t.hash key t.size) = some [] := by
      rw [table_at, if_neg (by omega), List.getElem?_eq_getElem hidx]
      simp [htab]
    refine ⟨{ t with
      table := List.set t.table (t.hash key t.size).toNat ([] ++ [item_create key value]) },
      none, ?_, ?_⟩
    · rw [hash_table_insert]
      simp only [hat, list_find, list_find_from, list_insert_last]
      rfl
    · rw [hash_table_is_empty]
      have hlen2 : (List.set t.table (t.hash key t.size).toNat ([] ++ [item_create key value])).length
          = t.size.toNat := by simp [hlen]
      have := hash_table_is_empty_loop_eq
        { t with table := List.set t.table (t.hash key t.size).toNat ([] ++ [item_create key value]) }
        t.size.toNat 0 (by simp [hlen])
      simp only [Nat.cast_zero] at this
      rw [this]
      simp only [List.drop_zero, Option.some.injEq, List.all_eq_false]
      refine ⟨[item_create key value], ?_, by simp [list_is_empty]⟩
      exact List.mem_iff_getElem.mpr ⟨(t.hash key t.size).toNat, by simpa using hidx, by simp⟩

/-- C10, evaluated at a failing input: the fresh table
`hash_table_create(-1, NULL, NULL)` has 101 buckets, `hash_table_size` 0 and
`hash_table_is_empty` true, but `hash_table_insert(t, "aaaaa", 1)` computes
the bucket index `default_hash("aaaaa", 101) = -2` and reads
`htable->table[-2]`, outside the bucket array: the insert has no defined
result, and so no table on which `hash_table_is_empty` is false. -/
theorem fresh_default_table_insert_out_of_bounds :
    str_table_default.size = 101 ∧
    hash_table_size str_table_default = some 0 ∧
    hash_table_is_empty str_table_default = some true ∧
    str_table_default.hash str_aaaaa str_table_default.size = -2 ∧
    table_at str_table_default (str_table_default.hash str_aaaaa str_table_default.size)
      = none ∧
    chains_of (hash_table_insert str_table_default str_aaaaa (some 1)) = none ∧
    and_then (hash_table_insert str_table_default str_aaaaa (some 1)) hash_table_is_empty
      = none := by
  decide

/-! ## Bulk views and entry count, against the spec -/

/-- The probing loop of `hash_table_keys` stops at the end of the chain: with
more probes than entries left, it appends the keys from `index` on. -/
theorem hash_table_keys_chain_eq {K V : Type} (list : List (Item K V)) :
    ∀ (fuel index : Nat) (keys : List K), list.length < index + fuel →
      hash_table_keys_chain list fuel (index : Int) keys
        = keys ++ (list.drop index).map (fun item => item.key) := by
  intro fuel
  induction fuel with
  | zero =>
    intro index keys h
    rw [List.drop_eq_nil_of_le (by omega)]
    simp [hash_table_keys_chain]
  | succ fuel ih =>
    intro index keys h
    rw [hash_table_keys_chain, list_get_natCast]
    by_cases hlt : index < list.length
    · rw [List.getElem?_eq_getElem hlt]
      have := ih (index + 1) (list_insert_last keys list[index].key) (by omega)
      simp only [Nat.cast_add, Nat.cast_one] at this
      show hash_table_keys_chain list fuel (↑index + 1) _ = _
      rw [this, List.drop_eq_getElem_cons hlt, list_insert_last, List.map_cons,
        List.append_assoc]
      rfl
    · rw [List.getElem?_eq_none (by omega), List.drop_eq_nil_of_le (by omega)]
      simp

/-- The probing loop of `hash_table_values` stops at the end of the chain: with
more probes than entries left, it appends the values from `index` on. -/
theorem hash_table_values_chain_eq {K V : Type} (list : List (Item K V)) :
    ∀ (fuel index : Nat) (values : List (Option V)), list.length < index + fuel →
      hash_table_values_chain list fuel (index : Int) values
        = values ++ (list.drop index).map (fun item => item.value) := by
  intro fuel
  induction fuel with
  | zero =>
    intro index values h
    rw [List.drop_eq_nil_of_le (by omega)]
    simp [hash_table_values_chain]
  | succ fuel ih =>
    intro index values h
    rw [hash_table_values_chain, list_get_natCast]
    by_cases hlt : index < list.length
    · rw [List.getElem?_eq_getElem hlt]
      have := ih (index + 1) (list_insert_last values list[index].value) (by omega)
      simp only [Nat.cast_add, Nat.cast_one] at this
      show hash_table_values_chain list fuel (↑index + 1) _ = _
      rw [this, List.drop_eq_getElem_cons hlt, list_insert_last, List.map_cons,
        List.append_assoc]
      rfl
    · rw [List.getElem?_eq_none (by omega), List.drop_eq_nil_of_le (by omega)]
      simp

/-- The bucket loop of `hash_table_keys`, on a bucket array with as many
chains as the loop visits. -/
theorem hash_table_keys_loop_eq {K V : Type} (htable : HashTable K V) :
    ∀ (n i : Nat) (keys : List K), i + n = htable.table.length →
      hash_table_keys_loop htable n (i : Int) keys
        = some (keys ++ (htable.table.drop i).flatten.map (fun item => item.key)) := by
  intro n
  induction n with
  | zero =>
    intro i keys h
    rw [List.drop_eq_nil_of_le (by omega)]
    simp [hash_table_keys_loop]
  | succ n ih =>
    intro i keys h
    have hi : i < htable.table.length := by omega
    rw [hash_table_keys_loop, table_at_natCast, List.getElem?_eq_getElem hi]
    have hc := hash_table_keys_chain_eq htable.table[i] (htable.table[i].length + 1) 0 keys
      (by omega)
    simp only [Nat.cast_zero, List.drop_zero] at hc
    have := ih (i + 1) (keys ++ htable.table[i].map (fun item => item.key)) (by omega)
    simp only [Nat.cast_add, Nat.cast_one] at this
    simp only [hc, this, List.drop_eq_getElem_cons hi, List.flatten_cons, List.map_append,
      List.append_assoc]

/-- The bucket loop of `hash_table_values`, on a bucket array with as many
chains as the loop visits. -/
theorem hash_table_values_loop_eq {K V : Type} (htable : HashTable K V) :
    ∀ (n i : Nat) (values : List (Option V)), i + n = htable.table.length →
      hash_table_values_loop htable n (i : Int) values
        = some (values ++ (htable.table.drop i).flatten.map (fun item => item.value)) := by
  intro n
  induction n with
  | zero =>
    intro i values h
    rw [List.drop_eq_nil_of_le (by omega)]
    simp [hash_table_values_loop]
  | succ n ih =>
    intro i values h
    have hi : i < htable.table.length := by omega
    rw [hash_table_values_loop, table_at_natCast, List.getElem?_eq_getElem hi]
    have hc := hash_table_values_chain_eq htable.table[i] (htable.table[i].length + 1) 0 values
      (by omega)
    simp only [Nat.cast_zero, List.drop_zero] at hc
    have := ih (i + 1) (values ++ htable.table[i].map (fun item => item.value)) (by omega)
    simp only [Nat.cast_add, Nat.cast_one] at this
    simp only [hc, this, List.drop_eq_getElem_cons hi, List.flatten_cons, List.map_append,
      List.append_assoc]

/-- `hash_table_size` is the spec's entry count, on a bucket array with as many
chains as `size` says. -/
theorem hash_table_size_eq_spec {K V : Type} (htable : HashTable K V)
    (hwf : htable.size.toNat = htable.table.length) :
    hash_table_size htable = some (size_spec htable) := by
  rw [hash_table_size, hwf]
  have := hash_table_size_loop_eq htable htable.table.length 0 0 (by simp)
  simp only [Nat.cast_zero, List.drop_zero, zero_add] at this
  rw [this, size_spec]

/-- The spec's entry count is the number of scanned entries. -/
theorem size_spec_eq_length {K V : Type} (htable : HashTable K V) :
    size_spec htable = ((entries htable).length : Nat) := by
  simp [size_spec, entries, List.length_flatten]

/-- C11: on a table whose `size` field counts its buckets, `hash_table_keys`
is the sequence of entry keys in scan order (buckets ascending, chain positions
ascending), `hash_table_values` is the sequence of entry values in the same
order, both have length `hash_table_size`, and the key and the value at any one
position are those of the same entry. -/
theorem bulk_views_scan_order {K V : Type} (htable : HashTable K V)
    (hwf : htable.size.toNat = htable.table.length) :
    hash_table_keys htable = some (keys_spec htable) ∧
    hash_table_values htable = some (values_spec htable) ∧
    hash_table_size htable = some (((keys_spec htable).length : Nat) : Int) ∧
    hash_table_size htable = some (((values_spec htable).length : Nat) : Int) ∧
    List.zip (keys_spec htable) (values_spec htable)
      = (entries htable).map (fun item => (item.key, item.value)) := by
  refine ⟨?_, ?_, ?_, ?_, ?_⟩
  · rw [hash_table_keys, hwf]
    have := hash_table_keys_loop_eq htable htable.table.length 0 list_create (by simp)
    simp only [Nat.cast_zero, List.drop_zero] at this
    rw [this]
    simp [list_create, keys_spec, entries]
  · rw [hash_table_values, hwf]
    have := hash_table_values_loop_eq htable htable.table.length 0 list_create (by simp)
    simp only [Nat.cast_zero, List.drop_zero] at this
    rw [this]
    simp [list_create, values_spec, entries]
  · rw [hash_table_size_eq_spec htable hwf, size_spec_eq_length]
    simp [keys_spec]
  · rw [hash_table_size_eq_spec htable hwf, size_spec_eq_length]
    simp [values_spec]
  · simp [keys_spec, values_spec, List.zip_map']

/-- C11 at the client table with an entry in each bucket. -/
theorem bulk_views_scan_order_witness :
    id_table_two.size.toNat = id_table_two.table.length ∧
    hash_table_keys id_table_two = some (keys_spec id_table_two) ∧
    hash_table_values id_table_two = some (values_spec id_table_two) ∧
    hash_table_size id_table_two = some (((keys_spec id_table_two).length : Nat) : Int) ∧
    hash_table_size id_table_two = some (((values_spec id_table_two).length : Nat) : Int) ∧
    List.zip (keys_spec id_table_two) (values_spec id_table_two)
      = (entries id_table_two).map (fun item => (item.key, item.value)) :=
  ⟨by decide, bulk_views_scan_order id_table_two (by decide)⟩

/-- The scenario of C12 with the one buffer `str_a` passed for both `"a"`: the
third insert finds the wrapper of the first, whose key pointer has the same
bytes, and the expected answers come out. -/
theorem default_scenario_one_buffer :
    and_then (and_then (and_then (hash_table_insert str_table str_a (some 1))
        (fun t => hash_table_insert t str_b (some 2)))
        (fun t => hash_table_insert t str_a (some 3))) hash_table_size = some 2 ∧
    and_then (and_then (and_then (hash_table_insert str_table str_a (some 1))
        (fun t => hash_table_insert t str_b (some 2)))
        (fun t => hash_table_insert t str_a (some 3))) hash_table_keys
        = some [str_a, str_b] ∧
    and_then (and_then (and_then (hash_table_insert str_table str_a (some 1))
        (fun t => hash_table_insert t str_b (some 2)))
        (fun t => hash_table_insert t str_a (some 3))) hash_table_values
        = some [some 3, some 2] ∧
    and_then (and_then (and_then (hash_table_insert str_table str_a (some 1))
        (fun t => hash_table_insert t str_b (some 2)))
        (fun t => hash_table_insert t str_a (some 3)))
        (fun t => hash_table_get t str_a) = some (some 3) ∧
    and_then (and_then (and_then (hash_table_insert str_table str_a (some 1))
        (fun t => hash_table_insert t str_b (some 2)))
        (fun t => hash_table_insert t str_a (some 3)))
        (fun t => hash_table_get t str_b) = some (some 2) := by
  decide

/-- C12, evaluated at a failing input: on `hash_table_create(4, NULL, NULL)`,
insert `("a", 1)`, `("b", 2)`, `("a", 3)` with the two `"a"` held in two
buffers, which the default equality judges equal. `hash_table_size` is 3, the
keys are `"a"`, `"a"`, `"b"`, the values 1, 3, 2, and `hash_table_get` answers
1 for the first buffer and 3 for the second. -/
theorem default_scenario_two_buffers :
    default_key_equal (str_chars (VoidPtr.key str_a)) (str_chars (VoidPtr.key str_a_copy))
      = true ∧
    and_then (and_then (and_then (hash_table_insert str_table str_a (some 1))
        (fun t => hash_table_insert t str_b (some 2)))
        (fun t => hash_table_insert t str_a_copy (some 3))) hash_table_size = some 3 ∧
    and_then (and_then (and_then (hash_table_insert str_table str_a (some 1))
        (fun t => hash_table_insert t str_b (some 2)))
        (fun t => hash_table_insert t str_a_copy (some 3))) hash_table_keys
        = some [str_a, str_a_copy, str_b] ∧
    and_then (and_then (and_then (hash_table_insert str_table str_a (some 1))
        (fun t => hash_table_insert t str_b (some 2)))
        (fun t => hash_table_insert t str_a_copy (some 3))) hash_table_values
        = some [some 1, some 3, some 2] ∧
    and_then (and_then (and_then (hash_table_insert str_table str_a (some 1))
        (fun t => hash_table_insert t str_b (some 2)))
        (fun t => hash_table_insert t str_a_copy (some 3)))
        (fun t => hash_table_get t str_a) = some (some 1) ∧
    and_then (and_then (and_then (hash_table_insert str_table str_a (some 1))
        (fun t => hash_table_insert t str_b (some 2)))
        (fun t => hash_table_insert t str_a_copy (some 3)))
        (fun t => hash_table_get t str_a_copy) = some (some 3) := by
  decide

/-- C13, evaluated at a failing input: the table `hash_table_create(4, NULL,
NULL)` holds `("a", 1)`; a second buffer holding `"a"` is equal to the stored
key under the default equality and a distinct instance. Inserting it with the
value 3 returns `NULL`, leaves the stored value 1 in place and appends an
entry: `hash_table_keys` goes from the first buffer alone to both buffers. -/
theorem duplicate_insert_stores_new_instance :
    default_key_equal (str_chars (VoidPtr.key str_a)) (str_chars (VoidPtr.key str_a_copy))
      = true ∧
    and_then (hash_table_insert str_table str_a (some 1)) hash_table_keys = some [str_a] ∧
    returned (and_then (hash_table_insert str_table str_a (some 1))
        (fun t => hash_table_insert t str_a_copy (some 3))) = some none ∧
    chains_of (and_then (hash_table_insert str_table str_a (some 1))
        (fun t => hash_table_insert t str_a_copy (some 3)))
        = some [[], [{ key := str_a, value := some 1 },
            { key := str_a_copy, value := some 3 }], [], []] ∧
    and_then (and_then (hash_table_insert str_table str_a (some 1))
        (fun t => hash_table_insert t str_a_copy (some 3))) hash_table_keys
        = some [str_a, str_a_copy] := by
  decide

/-- C14: for a requested size that is positive or the sentinel `-1`,
`hash_table_create` stores the bucket count 101 for `-1` and the requested
size otherwise, allocates exactly that many chains, all of them empty, takes
`default_hash` for an absent hash and `default_key_equal` for an absent
equality, each on the `(char *)` reading of its arguments, and stores a given
callback as it is. -/
theorem create_defaults {K V : Type} (as_chars : VoidPtr K V → List Int) (size : Int)
    (hash : Option (K → Int → Int)) (key_equal : Option (VoidPtr K V → VoidPtr K V → Bool))
    (hsize : 0 < size ∨ size = -1) :
    (hash_table_create as_chars size hash key_equal).size
      = (if size = -1 then 101 else size) ∧
    ((hash_table_create as_chars size hash key_equal).table.length : Int)
      = (if size = -1 then 101 else size) ∧
    (∀ list ∈ (hash_table_create as_chars size hash key_equal).table, list = []) ∧
    (hash_table_create as_chars size none key_equal).hash
      = (fun key n => default_hash (as_chars (VoidPtr.key key)) n) ∧
    (hash_table_create as_chars size hash none).key_equal
      = (fun str1 str2 => default_key_equal (as_chars str1) (as_chars str2)) ∧
    (∀ h, (hash_table_create as_chars size (some h) key_equal).hash = h) ∧
    (∀ e, (hash_table_create as_chars size hash (some e)).key_equal = e) := by
  refine ⟨hash_table_create_size as_chars size hash key_equal, ?_, ?_, rfl, rfl,
    fun _ => rfl, fun _ => rfl⟩
  · rw [hash_table_create_table, List.length_replicate, hash_table_create_size]
    rcases hsize with h | h
    · rw [if_neg (by omega)]; exact Int.toNat_of_nonneg (le_of_lt h)
    · simp [h]
  · intro list hlist
    rw [hash_table_create_table] at hlist
    exact List.eq_of_mem_replicate hlist

/-- C14 at the default size and the default callbacks of the string client. -/
theorem create_defaults_witness :
    ((0 : Int) < -1 ∨ (-1 : Int) = -1) ∧
    (hash_table_create str_chars (-1) none none).size = 101 ∧
    ((hash_table_create str_chars (-1) none none).table.length : Int) = 101 ∧
    (∀ list ∈ (hash_table_create str_chars (-1) none none).table, list = []) ∧
    (hash_table_create str_chars (-1) none none).hash
      = (fun key n => default_hash (str_chars (VoidPtr.key key)) n) ∧
    (hash_table_create str_chars (-1) none none).key_equal
      = (fun str1 str2 => default_key_equal (str_chars str1) (str_chars str2)) :=
  ⟨Or.inr rfl,
   (create_defaults str_chars (-1) none none (Or.inr rfl)).1,
   (create_defaults str_chars (-1) none none (Or.inr rfl)).2.1,
   (create_defaults str_chars (-1) none none (Or.inr rfl)).2.2.1,
   (create_defaults str_chars (-1) none none (Or.inr rfl)).2.2.2.1,
   (create_defaults str_chars (-1) none none (Or.inr rfl)).2.2.2.2.1⟩

/-- C15, evaluated at two failing inputs on `hash_table_create(4, NULL,
NULL)`. With `("a", 1)` stored, a probe with a second buffer holding `"a"`
is not found although the default equality accepts the stored key against the
probe key. With `("a", 1)` stored in a 256-aligned buffer, a probe with the
key `"e"` in another 256-aligned buffer is found, and `hash_table_get` returns
1, although the default equality rejects the stored key against the probe key:
the equality is applied to the two wrappers, not to the two keys. -/
theorem chain_search_compares_wrappers :
    default_key_equal (str_chars (VoidPtr.key str_a)) (str_chars (VoidPtr.key str_a_copy))
      = true ∧
    and_then (hash_table_insert str_table str_a (some 1))
        (fun t => hash_table_get t str_a_copy) = some none ∧
    default_key_equal (str_chars (VoidPtr.key str_a_aligned))
        (str_chars (VoidPtr.key str_e_aligned)) = false ∧
    chains_of (hash_table_insert str_table str_a_aligned (some 1))
        = some [[], [{ key := str_a_aligned, value := some 1 }], [], []] ∧
    and_then (hash_table_insert str_table str_a_aligned (some 1))
        (fun t => hash_table_get t str_e_aligned) = some (some 1) ∧
    list_find [({ key := str_a_aligned, value := some 1 } : Item StrKey Nat)]
        (fun a b => str_table.key_equal (VoidPtr.item a) (VoidPtr.item b))
        (item_create str_e_aligned none) = 0 := by
  decide

/-- C16, evaluated at a failing input: the client table holds `(key_z, 10)` in
bucket 0 and `(key_a, 10)` in bucket 1, two keys that are not equal.
`hash_table_rehash` to one bucket with both callbacks returns a table holding
`(key_z, 10)` only, while the teardown of the old table invokes `key_destroy`
on `key_z` and on `key_a` and `value_destroy` on both values: `key_a` is
handed to a callback and is not stored by the returned table. -/
theorem rehash_cleans_up_dropped_key :
    id_equal (VoidPtr.key key_z) (VoidPtr.key key_a) = false ∧
    chains_of (and_then (hash_table_insert id_table key_z (some 10))
        (fun t => hash_table_insert t key_a (some 10))) = some id_table_two.table ∧
    chains_of (hash_table_rehash id_chars id_table_two 1 true true)
        = some [[{ key := key_z, value := some 10 }]] ∧
    returned (hash_table_rehash id_chars id_table_two 1 true true)
        = some [CleanupCall.key_destroy key_z, CleanupCall.value_destroy (some 10),
            CleanupCall.key_destroy key_a, CleanupCall.value_destroy (some 10)] ∧
    and_then (hash_table_rehash id_chars id_table_two 1 true true) hash_table_keys
        = some [key_z] := by
  decide

/-! ## The placement invariant -/

/-- The scan of `list_find` answers `-1` or a position of the chain. -/
theorem list_find_from_range {α : Type} (equal : α → α → Bool) (element : α) :
    ∀ (list : List α) (start : Nat),
      list_find_from equal element list (start : Int) = -1 ∨
      ∃ j : Nat, list_find_from equal element list (start : Int) = ((start + j : Nat) : Int)
        ∧ j < list.length := by
  intro list
  induction list with
  | nil => intro start; left; rfl
  | cons x rest ih =>
    intro start
    rw [list_find_from]
    by_cases hx : equal x element = true
    · right
      exact ⟨0, by simp [hx], by simp⟩
    · rw [if_neg hx]
      have := ih (start + 1)
      simp only [Nat.cast_add, Nat.cast_one] at this
      rcases this with h | ⟨j, hj, hlt⟩
      · left; exact h
      · right
        refine ⟨j + 1, ?_, by simpa using hlt⟩
        rw [hj]
        push_cast
        ring

/-- `list_find` answers `-1` or a position of the chain. -/
theorem list_find_range {α : Type} (list : List α) (equal : α → α → Bool) (element : α) :
    list_find list equal element = -1 ∨
    ∃ j : Nat, list_find list equal element = (j : Int) ∧ j < list.length := by
  have := list_find_from_range equal element list 0
  simpa [list_find] using this

/-- Replacing the chain of bucket `j` by a chain whose keys all hash to `j`
keeps every entry in the bucket of its key. -/
theorem placed_set {K V : Type} (htable : HashTable K V) (j : Nat)
    (list : List (Item K V)) (hP : Placed htable)
    (hlist : ∀ item ∈ list, htable.hash item.key htable.size = (j : Int)) :
    Placed { htable with table := List.set htable.table j list } := by
  intro i l hl item hitem
  simp only [List.getElem?_set] at hl
  by_cases hji : j = i
  · subst hji
    rw [if_pos rfl] at hl
    split at hl
    · cases hl
      exact hlist item hitem
    · cases hl
  · rw [if_neg hji] at hl
    exact hP i l hl item hitem


/-- Under the hash contract the bucket read of an operation succeeds on a table
with a positive bucket count and one chain per bucket. -/
theorem table_at_hash {K V : Type} (hash : K → Int → Int) (htable : HashTable K V) (key : K)
    (hrange : HashInRange hash) (hS : Sound hash htable) :
    ∃ (h : (htable.hash key htable.size).toNat < htable.table.length),
      table_at htable (htable.hash key htable.size)
        = some (htable.table.get ⟨(htable.hash key htable.size).toNat, h⟩) ∧
      0 ≤ htable.hash key htable.size ∧
      ((htable.hash key htable.size).toNat : Int) = htable.hash key htable.size := by
  obtain ⟨hh, hpos, hwf, _⟩ := hS
  have hr := hrange key htable.size hpos
  rw [← hh] at hr
  have hidx : (htable.hash key htable.size).toNat < htable.table.length := by
    rw [← hwf]; omega
  refine ⟨hidx, ?_, hr.1, Int.toNat_of_nonneg hr.1⟩
  rw [table_at, if_neg (by omega), List.getElem?_eq_getElem hidx]
  rfl

/-- `hash_table_insert` succeeds on a sound table and leaves a sound table with
the same callbacks. -/
theorem hash_table_insert_sound {K V : Type} (hash : K → Int → Int) (htable : HashTable K V)
    (key : K) (value : Option V) (hrange : HashInRange hash) (hS : Sound hash htable) :
    ∃ next old, hash_table_insert htable key value = some (next, old) ∧
      Sound hash next ∧ next.key_equal = htable.key_equal ∧ next.size = htable.size := by
  obtain ⟨hidx, hat, hlo, hcast⟩ := table_at_hash hash htable key hrange hS
  obtain ⟨hh, hpos, hwf, hP⟩ := hS
  have hbucket : ∀ item ∈ htable.table.get ⟨(htable.hash key htable.size).toNat, hidx⟩,
      htable.hash item.key htable.size = ((htable.hash key htable.size).toNat : Int) :=
    hP _ _ (List.getElem?_eq_getElem hidx)
  rw [hash_table_insert]
  simp only [hat]
  rcases list_find_range (htable.table.get ⟨(htable.hash key htable.size).toNat, hidx⟩)
      (fun a b => htable.key_equal (VoidPtr.item a) (VoidPtr.item b))
      (item_create key value) with hnot | ⟨j, hj, hlt⟩
  · rw [hnot]
    refine ⟨_, _, rfl, ⟨hh, hpos, ?_, ?_⟩, rfl, rfl⟩
    · simpa using hwf
    · refine placed_set htable _ _ hP ?_
      intro item hitem
      simp only [list_insert_last, List.mem_append, List.mem_singleton] at hitem
      rcases hitem with hitem | hitem
      · exact hbucket item hitem
      · rw [hitem, hcast]; rfl
  · rw [hj]
    have hne : ((j : Int) != -1) = true := by
      simp only [bne_iff_ne, ne_eq]; omega
    rw [if_pos hne, list_get_natCast, List.getElem?_eq_getElem hlt]
    refine ⟨_, _, rfl, ⟨hh, hpos, ?_, ?_⟩, rfl, rfl⟩
    · simpa using hwf
    · refine placed_set htable _ _ hP ?_
      intro item hitem
      rcases List.mem_or_eq_of_mem_set hitem with hitem | hitem
      · exact hbucket item hitem
      · rw [hitem]
        exact hbucket (htable.table.get ⟨(htable.hash key htable.size).toNat, hidx⟩)[j]
          (List.getElem_mem hlt)


/-- `hash_table_remove` succeeds on a sound table and leaves a sound table with
the same callbacks. -/
theorem hash_table_remove_sound {K V : Type} (hash : K → Int → Int) (htable : HashTable K V)
    (key : K) (hrange : HashInRange hash) (hS : Sound hash htable) :
    ∃ next old, hash_table_remove htable key = some (next, old) ∧
      Sound hash next ∧ next.key_equal = htable.key_equal ∧ next.size = htable.size := by
  obtain ⟨hidx, hat, hlo, hcast⟩ := table_at_hash hash htable key hrange hS
  have hS0 := hS
  obtain ⟨hh, hpos, hwf, hP⟩ := hS
  have hbucket : ∀ item ∈ htable.table.get ⟨(htable.hash key htable.size).toNat, hidx⟩,
      htable.hash item.key htable.size = ((htable.hash key htable.size).toNat : Int) :=
    hP _ _ (List.getElem?_eq_getElem hidx)
  rw [hash_table_remove]
  simp only [hat]
  rcases list_find_range (htable.table.get ⟨(htable.hash key htable.size).toNat, hidx⟩)
      (fun a b => htable.key_equal (VoidPtr.item a) (VoidPtr.item b))
      (item_create key none) with hnot | ⟨j, hj, hlt⟩
  · rw [hnot]
    exact ⟨_, _, rfl, hS0, rfl, rfl⟩
  · rw [hj]
    have hne : ((j : Int) != -1) = true := by
      simp only [bne_iff_ne, ne_eq]; omega
    rw [if_pos hne, list_remove, list_get_natCast, List.getElem?_eq_getElem hlt]
    refine ⟨_, _, rfl, ⟨hh, hpos, ?_, ?_⟩, rfl, rfl⟩
    · simpa using hwf
    · refine placed_set htable _ _ hP ?_
      intro item hitem
      exact hbucket item (List.mem_of_mem_eraseIdx hitem)

/-- `hash_table_get` succeeds on a sound table. -/
theorem hash_table_get_total {K V : Type} (hash : K → Int → Int) (htable : HashTable K V)
    (key : K) (hrange : HashInRange hash) (hS : Sound hash htable) :
    ∃ result, hash_table_get htable key = some result := by
  obtain ⟨hidx, hat, hlo, hcast⟩ := table_at_hash hash htable key hrange hS
  rw [hash_table_get]
  simp only [hat]
  rcases list_find_range (htable.table.get ⟨(htable.hash key htable.size).toNat, hidx⟩)
      (fun a b => htable.key_equal (VoidPtr.item a) (VoidPtr.item b))
      (item_create key none) with hnot | ⟨j, hj, hlt⟩
  · rw [hnot]
    exact ⟨_, rfl⟩
  · rw [hj]
    have hne : ((j : Int) != -1) = true := by
      simp only [bne_iff_ne, ne_eq]; omega
    rw [if_pos hne, list_get_natCast, List.getElem?_eq_getElem hlt]
    exact ⟨_, rfl⟩

/-- The migration loop of `hash_table_rehash` over one chain succeeds and keeps
the new table sound, whatever the number of probes. -/
theorem hash_table_rehash_chain_sound {K V : Type} (hash : K → Int → Int)
    (key_equal : VoidPtr K V → VoidPtr K V → Bool) (size : Int)
    (list : List (Item K V)) (hrange : HashInRange hash) :
    ∀ (fuel : Nat) (index : Int) (new_ht : HashTable K V),
      Sound hash new_ht → new_ht.key_equal = key_equal → new_ht.size = size →
      ∃ next, hash_table_rehash_chain list fuel index new_ht = some next ∧
        Sound hash next ∧ next.key_equal = key_equal ∧ next.size = size := by
  intro fuel
  induction fuel with
  | zero =>
    intro index new_ht hS hk hs
    exact ⟨new_ht, rfl, hS, hk, hs⟩
  | succ fuel ih =>
    intro index new_ht hS hk hs
    rw [hash_table_rehash_chain]
    cases hget : list_get list index with
    | none => exact ⟨new_ht, rfl, hS, hk, hs⟩
    | some item =>
      obtain ⟨next, old, hins, hS2, hk2, hs2⟩ :=
        hash_table_insert_sound hash new_ht item.key item.value hrange hS
      simp only [hins]
      exact ih (index + 1) next hS2 (hk2.trans hk) (hs2.trans hs)

/-- The migration loop of `hash_table_rehash` over the buckets succeeds and
keeps the new table sound, when the old bucket array has as many chains as the
loop visits. -/
theorem hash_table_rehash_loop_sound {K V : Type} (hash : K → Int → Int)
    (key_equal : VoidPtr K V → VoidPtr K V → Bool) (size : Int)
    (htable : HashTable K V) (hrange : HashInRange hash) :
    ∀ (n i : Nat) (new_ht : HashTable K V), i + n = htable.table.length →
      Sound hash new_ht → new_ht.key_equal = key_equal → new_ht.size = size →
      ∃ next, hash_table_rehash_loop htable n (i : Int) new_ht = some next ∧
        Sound hash next ∧ next.key_equal = key_equal ∧ next.size = size := by
  intro n
  induction n with
  | zero =>
    intro i new_ht _ hS hk hs
    exact ⟨new_ht, rfl, hS, hk, hs⟩
  | succ n ih =>
    intro i new_ht hlen hS hk hs
    have hi : i < htable.table.length := by omega
    rw [hash_table_rehash_loop, table_at_natCast, List.getElem?_eq_getElem hi]
    obtain ⟨mid, hmid, hS2, hk2, hs2⟩ :=
      hash_table_rehash_chain_sound hash key_equal size htable.table[i] hrange
        (htable.table[i].length + 1) 0 new_ht hS hk hs
    simp only [hmid]
    have := ih (i + 1) mid (by omega) hS2 hk2 hs2
    simpa using this

/-- The callbacks that `hash_table_destroy` issues on two chains in a row. -/
theorem hash_table_destroy_chain_append {K V : Type} (key_destroy value_destroy : Bool)
    (l1 l2 : List (Item K V)) :
    hash_table_destroy_chain key_destroy value_destroy (l1 ++ l2)
      = hash_table_destroy_chain key_destroy value_destroy l1
        ++ hash_table_destroy_chain key_destroy value_destroy l2 := by
  induction l1 with
  | nil => rfl
  | cons item rest ih => simp [hash_table_destroy_chain, ih]

/-- The bucket loop of `hash_table_destroy`, on a bucket array with as many
chains as the loop visits: the callbacks run over the entries in scan order. -/
theorem hash_table_destroy_loop_eq {K V : Type} (htable : HashTable K V)
    (key_destroy value_destroy : Bool) :
    ∀ (n i : Nat), i + n = htable.table.length →
      hash_table_destroy_loop htable key_destroy value_destroy n (i : Int)
        = some (hash_table_destroy_chain key_destroy value_destroy
            (htable.table.drop i).flatten) := by
  intro n
  induction n with
  | zero =>
    intro i h
    rw [List.drop_eq_nil_of_le (by omega)]
    rfl
  | succ n ih =>
    intro i h
    have hi : i < htable.table.length := by omega
    rw [hash_table_destroy_loop, table_at_natCast, List.getElem?_eq_getElem hi]
    have := ih (i + 1) (by omega)
    simp only [Nat.cast_add, Nat.cast_one] at this
    simp only [this]
    rw [List.drop_eq_getElem_cons hi, List.flatten_cons, hash_table_destroy_chain_append]

/-- `hash_table_destroy` on a table whose `size` field counts its buckets: the
callbacks run over the entries in scan order. -/
theorem hash_table_destroy_eq {K V : Type} (htable : HashTable K V)
    (key_destroy value_destroy : Bool) (hwf : htable.size.toNat = htable.table.length) :
    hash_table_destroy htable key_destroy value_destroy
      = some (hash_table_destroy_chain key_destroy value_destroy (entries htable)) := by
  rw [hash_table_destroy, hwf]
  have := hash_table_destroy_loop_eq htable key_destroy value_destroy htable.table.length 0
    (by simp)
  simpa [entries] using this

/-- A table that `hash_table_create` makes with a positive bucket count is
sound for the hash it stores. -/
theorem hash_table_create_sound {K V : Type} (as_chars : VoidPtr K V → List Int) (size : Int)
    (hash : Option (K → Int → Int)) (key_equal : Option (VoidPtr K V → VoidPtr K V → Bool))
    (hsize : 0 < size ∨ size = -1) :
    Sound (hash_table_create as_chars size hash key_equal).hash
      (hash_table_create as_chars size hash key_equal) := by
  refine ⟨rfl, ?_, ?_, ?_⟩
  · rw [hash_table_create_size]
    rcases hsize with h | h
    · split <;> omega
    · simp [h]
  · rw [hash_table_create_table]; simp
  · intro i list hl item hitem
    rw [hash_table_create_table] at hl
    rw [List.getElem?_replicate] at hl
    split at hl
    · cases hl; cases hitem
    · cases hl

/-- `hash_table_rehash` with a positive bucket count succeeds on a sound table
and returns a sound table with that bucket count, the same callbacks, and the
callbacks of the teardown run over the old entries in scan order. -/
theorem hash_table_rehash_sound {K V : Type} (as_chars : VoidPtr K V → List Int)
    (hash : K → Int → Int) (htable : HashTable K V) (new_size : Int)
    (key_destroy value_destroy : Bool) (hrange : HashInRange hash) (hS : Sound hash htable)
    (hnew : 0 < new_size) :
    ∃ next, hash_table_rehash as_chars htable new_size key_destroy value_destroy
        = some (next, hash_table_destroy_chain key_destroy value_destroy (entries htable)) ∧
      Sound hash next ∧ next.key_equal = htable.key_equal ∧ next.size = new_size := by
  obtain ⟨hh, hpos, hwf, hP⟩ := hS
  rw [hash_table_rehash, if_neg (by omega)]
  have hcS := hash_table_create_sound as_chars new_size (some htable.hash)
    (some htable.key_equal) (Or.inl hnew)
  have hch : (hash_table_create as_chars new_size (some htable.hash)
      (some htable.key_equal)).hash = hash := hh
  rw [hch] at hcS
  have hcs : (hash_table_create as_chars new_size (some htable.hash)
      (some htable.key_equal)).size = new_size := by
    rw [hash_table_create_size, if_neg (by omega)]
  obtain ⟨next, hnext, hS2, hk2, hs2⟩ :=
    hash_table_rehash_loop_sound hash htable.key_equal new_size htable hrange
      htable.table.length 0 _ (by simp) hcS rfl hcs
  simp only [Nat.cast_zero] at hnext
  have hd := hash_table_destroy_eq htable key_destroy value_destroy hwf
  rw [hwf]
  simp only [hnext, hd]
  exact ⟨next, rfl, hS2, hk2, hs2⟩


/-- Every table reachable from a sound table is sound and has the callbacks of
the table it was reached from. -/
theorem reachable_sound {K V : Type} (as_chars : VoidPtr K V → List Int)
    (hash : K → Int → Int) (start htable : HashTable K V) (hrange : HashInRange hash)
    (hstart : Sound hash start) (hreach : Reachable as_chars start htable) :
    Sound hash htable ∧ htable.key_equal = start.key_equal := by
  induction hreach with
  | init => exact ⟨hstart, rfl⟩
  | insert t key value next old _ hins ih =>
    obtain ⟨next2, old2, h2, hS, hk, _⟩ :=
      hash_table_insert_sound hash t key value hrange ih.1
    rw [hins] at h2
    cases h2
    exact ⟨hS, hk.trans ih.2⟩
  | remove t key next old _ hrem ih =>
    obtain ⟨next2, old2, h2, hS, hk, _⟩ := hash_table_remove_sound hash t key hrange ih.1
    rw [hrem] at h2
    cases h2
    exact ⟨hS, hk.trans ih.2⟩
  | rehash t new_size key_destroy value_destroy next calls _ hnew hre ih =>
    obtain ⟨next2, h2, hS, hk, _⟩ :=
      hash_table_rehash_sound as_chars hash t new_size key_destroy value_destroy hrange ih.1 hnew
    rw [hre] at h2
    cases h2
    exact ⟨hS, hk.trans ih.2⟩

/-- C17: take a table made by `hash_table_create` with a positive or default
bucket count whose hash keeps the contract (a value in `[0, n)` for positive
`n`). In every table reached from it by `hash_table_insert`,
`hash_table_remove` and `hash_table_rehash` with a positive bucket count, the
bucket count is positive and equals the number of chains, every entry stored
in bucket `i` has `hash(entry.key, n) = i`, the bucket index that insert, get
and remove compute for any key is a valid index of the bucket array, and all
four operations succeed. -/
theorem placement_invariant {K V : Type} (as_chars : VoidPtr K V → List Int) (size : Int)
    (hash : Option (K → Int → Int)) (key_equal : Option (VoidPtr K V → VoidPtr K V → Bool))
    (htable : HashTable K V) (hsize : 0 < size ∨ size = -1)
    (hrange : HashInRange (hash_table_create as_chars size hash key_equal).hash)
    (hreach : Reachable as_chars (hash_table_create as_chars size hash key_equal) htable) :
    (0 < htable.size ∧ (htable.table.length : Int) = htable.size) ∧
    (∀ (i : Nat) (list : List (Item K V)), htable.table[i]? = some list →
      ∀ item ∈ list, htable.hash item.key htable.size = (i : Int)) ∧
    (∀ key : K, 0 ≤ htable.hash key htable.size ∧
      htable.hash key htable.size < (htable.table.length : Int)) ∧
    (∀ (key : K) (value : Option V), ∃ next old,
      hash_table_insert htable key value = some (next, old)) ∧
    (∀ key : K, ∃ result, hash_table_get htable key = some result) ∧
    (∀ key : K, ∃ next old, hash_table_remove htable key = some (next, old)) ∧
    (∀ (new_size : Int) (key_destroy value_destroy : Bool), 0 < new_size →
      ∃ next calls,
        hash_table_rehash as_chars htable new_size key_destroy value_destroy
          = some (next, calls)) := by
  have hS := (reachable_sound as_chars _ _ htable hrange
    (hash_table_create_sound as_chars size hash key_equal hsize) hreach).1
  have hS0 := hS
  obtain ⟨hh, hpos, hwf, hP⟩ := hS
  have hlen : (htable.table.length : Int) = htable.size := by
    rw [← hwf]; exact Int.toNat_of_nonneg (le_of_lt hpos)
  refine ⟨⟨hpos, hlen⟩, hP, ?_, ?_, ?_, ?_, ?_⟩
  · intro key
    have hr := hrange key htable.size hpos
    rw [← hh] at hr
    exact ⟨hr.1, by rw [hlen]; exact hr.2⟩
  · intro key value
    obtain ⟨next, old, h, _⟩ := hash_table_insert_sound _ htable key value hrange hS0
    exact ⟨next, old, h⟩
  · intro key
    exact hash_table_get_total _ htable key hrange hS0
  · intro key
    obtain ⟨next, old, h, _⟩ := hash_table_remove_sound _ htable key hrange hS0
    exact ⟨next, old, h⟩
  · intro new_size key_destroy value_destroy hnew
    obtain ⟨next, h, _⟩ := hash_table_rehash_sound as_chars _ htable new_size key_destroy
      value_destroy hrange hS0 hnew
    exact ⟨next, _, h⟩

/-- The client table with an entry in each bucket is reached by two inserts. -/
theorem id_table_two_reachable : Reachable id_chars id_table id_table_two :=
  Reachable.insert { id_table with table := [[{ key := key_z, value := some 10 }], []] }
    key_a (some 10) id_table_two none
    (Reachable.insert id_table key_z (some 10) _ none Reachable.init rfl) rfl

/-- C17 at the client table with an entry in each bucket. -/
theorem placement_invariant_witness :
    ((0 : Int) < 2 ∨ (2 : Int) = -1) ∧
    HashInRange id_table.hash ∧
    Reachable id_chars id_table id_table_two ∧
    (∀ (i : Nat) (list : List (Item IdKey Nat)), id_table_two.table[i]? = some list →
      ∀ item ∈ list, id_table_two.hash item.key id_table_two.size = (i : Int)) ∧
    (∀ key : IdKey, 0 ≤ id_table_two.hash key id_table_two.size ∧
      id_table_two.hash key id_table_two.size < (id_table_two.table.length : Int)) :=
  ⟨Or.inl (by decide), id_callbacks_contract.1, id_table_two_reachable,
   (placement_invariant id_chars 2 (some id_hash) (some id_equal) id_table_two
      (Or.inl (by decide)) id_callbacks_contract.1 id_table_two_reachable).2.1,
   (placement_invariant id_chars 2 (some id_hash) (some id_equal) id_table_two
      (Or.inl (by decide)) id_callbacks_contract.1 id_table_two_reachable).2.2.1⟩

/-- C18, evaluated at a failing input: on `hash_table_create(4, NULL, NULL)`
the key `"a"` is stored with the value 1 in a 256-aligned buffer, and `"e"`,
which is not equal to `"a"`, lives in another 256-aligned buffer.
`hash_table_get(t, "a")` is 1 before `hash_table_insert(t, "e", 2)` and 2
after it, and it is `NULL` after `hash_table_remove(t, "e")`. -/
theorem other_key_interferes :
    default_key_equal (str_chars (VoidPtr.key str_a_aligned))
        (str_chars (VoidPtr.key str_e_aligned)) = false ∧
    and_then (hash_table_insert str_table str_a_aligned (some 1))
        (fun t => hash_table_get t str_a_aligned) = some (some 1) ∧
    and_then (and_then (hash_table_insert str_table str_a_aligned (some 1))
        (fun t => hash_table_insert t str_e_aligned (some 2)))
        (fun t => hash_table_get t str_a_aligned) = some (some 2) ∧
    and_then (and_then (hash_table_insert str_table str_a_aligned (some 1))
        (fun t => hash_table_remove t str_e_aligned))
        (fun t => hash_table_get t str_a_aligned) = some none := by
  decide

/-- C19, evaluated at a failing input: the client table after
`hash_table_insert(t, key_a, 10)`, a non-`NULL` value. `hash_table_keys` is
`[key_a]`, yet `hash_table_get(t, key_a)` returns `NULL`; and
`hash_table_insert(t, key_b, 10)` returns 10 although `key_b` is not equal to
the one key present. -/
theorem absent_answers_disagree_with_keys :
    and_then (hash_table_insert id_table key_a (some 10)) hash_table_keys = some [key_a] ∧
    id_equal (VoidPtr.key key_a) (VoidPtr.key key_a) = true ∧
    and_then (hash_table_insert id_table key_a (some 10))
        (fun t => hash_table_get t key_a) = some none ∧
    id_equal (VoidPtr.key key_a) (VoidPtr.key key_b) = false ∧
    returned (and_then (hash_table_insert id_table key_a (some 10))
        (fun t => hash_table_insert t key_b (some 10))) = some (some 10) := by
  decide

/-- C20: on a table whose `size` field counts its buckets (chains being dense
sequences of entries), `hash_table_size` is the sum of the chain lengths over
all buckets, `hash_table_is_empty` is true exactly when every chain has zero
entries, and `hash_table_is_empty` is true if and only if `hash_table_size`
is 0. -/
theorem is_empty_iff_size_zero {K V : Type} (htable : HashTable K V)
    (hwf : htable.size.toNat = htable.table.length) :
    hash_table_size htable = some (size_spec htable) ∧
    hash_table_is_empty htable = some (is_empty_spec htable) ∧
    (hash_table_is_empty htable = some true ↔ hash_table_size htable = some 0) := by
  have hsize := hash_table_size_eq_spec htable hwf
  have hempty : hash_table_is_empty htable = some (is_empty_spec htable) := by
    rw [hash_table_is_empty, hwf]
    have := hash_table_is_empty_loop_eq htable htable.table.length 0 (by simp)
    simp only [Nat.cast_zero, List.drop_zero] at this
    have hfun : (list_is_empty : List (Item K V) → Bool) = fun list => list.length == 0 := by
      funext list
      cases list <;> rfl
    rw [this, is_empty_spec, hfun]
  refine ⟨hsize, hempty, ?_⟩
  rw [hsize, hempty]
  simp only [Option.some.injEq, is_empty_spec, size_spec, List.all_eq_true, beq_iff_eq]
  constructor
  · intro h
    have : (htable.table.map List.length).sum = 0 := by
      apply List.sum_eq_zero
      intro n hn
      obtain ⟨list, hlist, rfl⟩ := List.mem_map.mp hn
      exact h list hlist
    rw [this]; rfl
  · intro h list hlist
    have h0 : (htable.table.map List.length).sum = 0 := by exact_mod_cast h
    have hle := List.single_le_sum (fun _ _ => Nat.zero_le _) _ (List.mem_map_of_mem List.length hlist)
    omega

/-- C20 at the client table with an entry in each bucket. -/
theorem is_empty_iff_size_zero_witness :
    id_table_two.size.toNat = id_table_two.table.length ∧
    hash_table_size id_table_two = some (size_spec id_table_two) ∧
    hash_table_is_empty id_table_two = some (is_empty_spec id_table_two) ∧
    (hash_table_is_empty id_table_two = some true ↔ hash_table_size id_table_two = some 0) :=
  ⟨by decide, is_empty_iff_size_zero id_table_two (by decide)⟩

end OpenHashTable
